import Mathlib

/-!
# Verification of the ASTRA job-control engine

A shallow embedding of the core of the ASTRA shell (src/queue.py, src/parser.py,
src/executor.py, src/resource.py) together with theorems settling the claims of
the specification.

Modelling conventions:
* Python `dict`s keyed by job id are modelled as `List Job` in insertion order
  (ids are unique and jobs are never deleted from the table);
  the queue-name dict is modelled as a total function `String → List Nat`
  defaulting to `[]` (the code only ever distinguishes a missing queue from an
  empty one by creating the empty list, which is observationally the same).
* `time.time()` results are modelled as explicit `Nat` timestamps supplied to
  each operation.
* `list.sort` (Timsort, a stable sort) is modelled by `List.mergeSort`, which is
  also stable, hence extensionally identical on every input.
* Python exceptions are modelled with `Except`: a function that can raise
  returns `Except String α`, and a `try/except` block is an explicit `match` on
  that result.
-/

namespace ASTRA

/-! ## src/queue.py -/

/-- `Priority` enumeration: LOW = 3, NORMAL = 2, HIGH = 1, CRITICAL = 0. -/
inductive Priority
  | LOW
  | NORMAL
  | HIGH
  | CRITICAL
deriving DecidableEq, Repr

/-- The numeric value of each `Priority` member (lower value = more urgent). -/
def Priority.value : Priority → Nat
  | .LOW => 3
  | .NORMAL => 2
  | .HIGH => 1
  | .CRITICAL => 0

/-- Job status values: `queued, running, completed, failed, cancelled`
(the status strings that appear in src/queue.py). -/
inductive Status
  | queued
  | running
  | completed
  | failed
  | cancelled
deriving DecidableEq, Repr

/-- The `Job` dataclass of src/queue.py. -/
structure Job where
  job_id : Nat
  command : String
  args : List String
  priority : Priority := .NORMAL
  queue : String := "default"
  cores : Nat := 1
  memory : String := "1GB"
  created_at : Nat
  started_at : Option Nat := none
  completed_at : Option Nat := none
  status : Status := .queued
  process_id : Option Nat := none
  return_code : Option Int := none
deriving DecidableEq, Repr

/-- The mutable state of a `JobQueue` instance: the job table (insertion
order), the queue-name → job-id-list mapping, and the id counter. -/
structure JobQueue where
  jobs : List Job
  queues : String → List Nat
  next_job_id : Nat

/-- `JobQueue.__init__`: empty job table, empty queues, ids start at 1. -/
def JobQueue.init : JobQueue :=
  { jobs := [], queues := fun _ => [], next_job_id := 1 }

/-- Dict lookup `self.jobs[job_id]` / `job_id in self.jobs`. -/
def findJob (jobs : List Job) (id : Nat) : Option Job :=
  jobs.find? (fun j => j.job_id == id)

/-- `Priority[priority.upper()]` with `KeyError` defaulting to `NORMAL`. -/
def priorityOfString (s : String) : Priority :=
  match String.mk (s.data.map Char.toUpper) with
  | "LOW" => .LOW
  | "NORMAL" => .NORMAL
  | "HIGH" => .HIGH
  | "CRITICAL" => .CRITICAL
  | _ => .NORMAL

/-- The sort key used by `_sort_queue`:
`(self.jobs[jid].priority.value, self.jobs[jid].created_at)`.
(The `none` branch is unreachable: every id in a queue is an allocated job.) -/
def sortKey (jobs : List Job) (id : Nat) : Nat × Nat :=
  match findJob jobs id with
  | some j => (j.priority.value, j.created_at)
  | none => (0, 0)

/-- Comparison of sort keys: lexicographic `≤` on (priority value, created_at),
exactly Python's tuple comparison used by `list.sort(key=...)`. -/
def keyLe (jobs : List Job) (a b : Nat) : Bool :=
  decide ((sortKey jobs a).1 < (sortKey jobs b).1 ∨
    ((sortKey jobs a).1 = (sortKey jobs b).1 ∧ (sortKey jobs a).2 ≤ (sortKey jobs b).2))

/-- `_sort_queue`: stable-sort the named queue by (priority value, created_at). -/
def sort_queue (st : JobQueue) (q : String) : JobQueue :=
  { st with queues := fun q2 =>
      if q2 = q then (st.queues q).mergeSort (keyLe st.jobs) else st.queues q2 }

/-- The `Job` record created by `submit_job`. -/
def submittedJob (st : JobQueue) (command : String) (args : List String)
    (queue priority : String) (cores : Nat) (memoryReq : String)
    (now : Nat) : Job :=
  { job_id := st.next_job_id, command := command, args := args,
    priority := priorityOfString priority, queue := queue,
    cores := cores, memory := memoryReq, created_at := now }

/-- `submit_job`: allocate the next id, create a `queued` job, append it to the
named queue and re-sort that queue.  `now` models the `time.time()` call that
initialises `created_at`. -/
def submit_job (st : JobQueue) (command : String) (args : List String)
    (queue : String) (priority : String) (cores : Nat) (memoryReq : String)
    (now : Nat) : JobQueue × Nat :=
  let job : Job := submittedJob st command args queue priority cores memoryReq now
  let jobs' := st.jobs ++ [job]
  let st' : JobQueue :=
    { jobs := jobs',
      queues := fun q2 => if q2 = queue then st.queues queue ++ [st.next_job_id]
                          else st.queues q2,
      next_job_id := st.next_job_id }
  let st'' := sort_queue st' queue
  ({ st'' with next_job_id := st.next_job_id + 1 }, st.next_job_id)

/-- `start_job`: no status guard in the source — any existing job is set to
`running` and its start time recorded; unknown ids return `False`. -/
def start_job (st : JobQueue) (id : Nat) (now : Nat) : JobQueue × Bool :=
  match findJob st.jobs id with
  | none => (st, false)
  | some _ =>
    ({ st with jobs := st.jobs.map (fun j =>
        if j.job_id == id then { j with status := .running, started_at := some now }
        else j) }, true)

/-- `complete_job`: no status guard in the source — any existing job is set to
`completed`, its completion time and return code recorded, and its id removed
from every queue that contains it; unknown ids return `False`. -/
def complete_job (st : JobQueue) (id : Nat) (rc : Int) (now : Nat) :
    JobQueue × Bool :=
  match findJob st.jobs id with
  | none => (st, false)
  | some _ =>
    ({ st with
        jobs := st.jobs.map (fun j =>
          if j.job_id == id then
            { j with status := .completed, completed_at := some now,
                     return_code := some rc }
          else j),
        queues := fun q => (st.queues q).erase id }, true)

/-- `cancel_job`: rejects only jobs whose status is `running` or `completed`
(the guard `if job.status in ('running', 'completed')`); any other existing job
is set to `cancelled` and removed from every queue; unknown ids return
`False`. -/
def cancel_job (st : JobQueue) (id : Nat) : JobQueue × Bool :=
  match findJob st.jobs id with
  | none => (st, false)
  | some j =>
    if j.status = .running ∨ j.status = .completed then (st, false)
    else
      ({ st with
          jobs := st.jobs.map (fun j2 =>
            if j2.job_id == id then { j2 with status := .cancelled } else j2),
          queues := fun q => (st.queues q).erase id }, true)

/-- `get_next_job`: head of the named queue, only if still `queued`.
(The inner `none` branch models the `KeyError` that cannot occur in reachable
states, where every queued id is allocated.) -/
def get_next_job (st : JobQueue) (q : String) : Option Job :=
  match st.queues q with
  | [] => none
  | id :: _ =>
    match findJob st.jobs id with
    | some j => if j.status = .queued then some j else none
    | none => none

/-- `get_job`. -/
def get_job (st : JobQueue) (id : Nat) : Option Job :=
  findJob st.jobs id

/-- `get_jobs`: all jobs, optionally filtered by queue and/or status.
Python's `if queue:` is falsy for the empty string, hence the extra test. -/
def get_jobs (st : JobQueue) (queue : Option String) (status : Option Status) :
    List Job :=
  let js := st.jobs
  let js := match queue with
    | some q => if q = "" then js else js.filter (fun j => j.queue == q)
    | none => js
  match status with
  | some s => js.filter (fun j => j.status == s)
  | none => js

/-- The dictionary returned by `get_queue_stats`. -/
structure QueueStats where
  queue : String
  total_jobs : Nat
  queued : Nat
  running : Nat
  completed : Nat
  failed : Nat
  cancelled : Nat
deriving DecidableEq, Repr

/-- `get_queue_stats`: per-status counts over the jobs currently indexed under
the queue name.  (`filterMap` models `self.jobs[jid]`; the skipped-`none` case
is the unreachable `KeyError`.) -/
def get_queue_stats (st : JobQueue) (q : String) : QueueStats :=
  let js := (st.queues q).filterMap (findJob st.jobs)
  { queue := q,
    total_jobs := js.length,
    queued := js.countP (fun j => j.status == .queued),
    running := js.countP (fun j => j.status == .running),
    completed := js.countP (fun j => j.status == .completed),
    failed := js.countP (fun j => j.status == .failed),
    cancelled := js.countP (fun j => j.status == .cancelled) }

/-- One externally-invokable `JobQueue` mutation, with its `time.time()`
values made explicit. -/
inductive Op
  | submit (command : String) (args : List String) (queue priority : String)
      (cores : Nat) (memoryReq : String) (now : Nat)
  | start (id : Nat) (now : Nat)
  | complete (id : Nat) (rc : Int) (now : Nat)
  | cancel (id : Nat)

/-- Apply one operation (discarding the returned value). -/
def applyOp (st : JobQueue) : Op → JobQueue
  | .submit c a q p co m now => (submit_job st c a q p co m now).1
  | .start id now => (start_job st id now).1
  | .complete id rc now => (complete_job st id rc now).1
  | .cancel id => (cancel_job st id).1

/-- Run a sequence of operations from the initial state. -/
def run (ops : List Op) : JobQueue :=
  ops.foldl applyOp JobQueue.init

/-- A state with one job that has been submitted and then cancelled. -/
def exCancelled : JobQueue :=
  run [.submit "sleep" ["5"] "default" "normal" 1 "1GB" 0, .cancel 1]

/-- A state with one job that has been submitted and then started. -/
def exRunning : JobQueue :=
  run [.submit "sleep" ["5"] "default" "normal" 1 "1GB" 0, .start 1 3]

/-- Jobs submitted with priorities low, high, normal (in that order). -/
def exLHN : JobQueue :=
  run [.submit "a" [] "default" "low" 1 "1GB" 0,
       .submit "b" [] "default" "high" 1 "1GB" 1,
       .submit "c" [] "default" "normal" 1 "1GB" 2]

/-- Two normal-priority jobs submitted at the same timestamp. -/
def exFIFO : JobQueue :=
  run [.submit "a" [] "default" "normal" 1 "1GB" 5,
       .submit "b" [] "default" "normal" 1 "1GB" 5]

/-- The job record held in `exCancelled`. -/
def exCancelledJob : Job :=
  { job_id := 1, command := "sleep", args := ["5"], created_at := 0,
    status := .cancelled }

/-- The job record held in `exRunning`. -/
def exRunningJob : Job :=
  { job_id := 1, command := "sleep", args := ["5"], created_at := 0,
    status := .running, started_at := some 3 }

/-- The reachable-state invariant of a `JobQueue`: job ids are bounded by the
id counter, every id stored in a queue is an allocated job, every queue is
sorted (non-strictly) by (priority value, created_at), and no job ever has
status `failed`. -/
def QInv (st : JobQueue) : Prop :=
  (∀ j ∈ st.jobs, j.job_id < st.next_job_id) ∧
  (∀ q id, id ∈ st.queues q → (findJob st.jobs id).isSome = true) ∧
  (∀ q, (st.queues q).Pairwise (fun a b => keyLe st.jobs a b = true)) ∧
  (∀ j ∈ st.jobs, j.status ≠ .failed)

/-! ## src/parser.py -/

/-- The five redirection operators matched by
`redirect_pattern = re.compile(r'(>>?|<|2>|&>)')`. -/
inductive RedirOp
  | rIn
  | rOut
  | rApp
  | rErr
  | rBoth
deriving DecidableEq, Repr

/-- `re.finditer` of `(>>?|<|2>|&>)` over the stage text, as (operator,
match-end index) pairs in left-to-right order; matches are non-overlapping
and the alternation prefers `>>` over `>` at the same position. -/
def findRedirMatches : List Char → Nat → List (RedirOp × Nat)
  | [], _ => []
  | '>' :: '>' :: rest, i => (.rApp, i + 2) :: findRedirMatches rest (i + 2)
  | '>' :: rest, i => (.rOut, i + 1) :: findRedirMatches rest (i + 1)
  | '<' :: rest, i => (.rIn, i + 1) :: findRedirMatches rest (i + 1)
  | '2' :: '>' :: rest, i => (.rErr, i + 2) :: findRedirMatches rest (i + 2)
  | '&' :: '>' :: rest, i => (.rBoth, i + 2) :: findRedirMatches rest (i + 2)
  | _ :: rest, i => findRedirMatches rest (i + 1)

/-- `redirect_pattern.sub('', cmd_str)`: delete every operator match. -/
def removeRedirOps : List Char → List Char
  | [] => []
  | '>' :: '>' :: rest => removeRedirOps rest
  | '>' :: rest => removeRedirOps rest
  | '<' :: rest => removeRedirOps rest
  | '2' :: '>' :: rest => removeRedirOps rest
  | '&' :: '>' :: rest => removeRedirOps rest
  | c :: rest => c :: removeRedirOps rest

/-- Python `str.strip()`: drop whitespace from both ends. -/
def pyStrip (cs : List Char) : List Char :=
  ((cs.dropWhile Char.isWhitespace).reverse.dropWhile Char.isWhitespace).reverse

/-- Helper for `pySplit`: accumulates the current (reversed) token. -/
def pySplitAux : List Char → List Char → List String
  | [], acc => if acc.isEmpty then [] else [String.mk acc.reverse]
  | c :: rest, acc =>
    if c.isWhitespace then
      if acc.isEmpty then pySplitAux rest []
      else String.mk acc.reverse :: pySplitAux rest []
    else pySplitAux rest (c :: acc)

/-- Python `str.split()` with no argument: split on whitespace runs,
discarding empty pieces. -/
def pySplit (cs : List Char) : List String :=
  pySplitAux cs []

/-- Python `str.replace(old, '')` for nonempty `old`: remove every
left-to-right, non-overlapping occurrence. -/
def removeOccurrences : List Char → List Char → List Char
  | [], _ => []
  | c :: rest, pat =>
    if pat ≠ [] ∧ pat.isPrefixOf (c :: rest) then
      removeOccurrences (rest.drop (pat.length - 1)) pat
    else c :: removeOccurrences rest pat
termination_by l _ => l.length
decreasing_by
  · simp only [List.length_drop, List.length_cons]
    omega
  · simp

/-- `remaining.replace(filename, '')`. -/
def pyReplace (s pat : String) : String :=
  String.mk (removeOccurrences s.data pat.data)

/-- The scanner states of the `shlex.split` model. -/
inductive ShlexMode
  | top
  | inSingle
  | inDouble
deriving DecidableEq, Repr

/-- Model of Python's `shlex.split` (POSIX mode, `whitespace_split=True`):
whitespace separates tokens; `'…'` groups verbatim; `"…"` groups with `\`
escaping only `"` and `\`; outside quotes `\` takes the next character
literally.  Raises `ValueError` (`.error`) on an unterminated quote or a
trailing escape — exactly the failure modes that the parser guards with
`try/except ValueError`.  (The comment/punctuation machinery of `shlex` is
disabled by `shlex.split` and not modelled.) -/
def shlexCore : List Char → ShlexMode → List Char → Bool →
    Except String (List String)
  | [], .top, acc, started =>
      if started then .ok [String.mk acc.reverse] else .ok []
  | [], .inSingle, _, _ => .error "No closing quotation"
  | [], .inDouble, _, _ => .error "No closing quotation"
  | c :: rest, .top, acc, started =>
      if c = '\'' then shlexCore rest .inSingle acc true
      else if c = '"' then shlexCore rest .inDouble acc true
      else if c = '\\' then
        match rest with
        | [] => .error "No escaped character"
        | e :: rest2 => shlexCore rest2 .top (e :: acc) true
      else if c.isWhitespace then
        if started then
          match shlexCore rest .top [] false with
          | .ok ts => .ok (String.mk acc.reverse :: ts)
          | .error e => .error e
        else shlexCore rest .top [] false
      else shlexCore rest .top (c :: acc) true
  | c :: rest, .inSingle, acc, started =>
      if c = '\'' then shlexCore rest .top acc started
      else shlexCore rest .inSingle (c :: acc) started
  | c :: rest, .inDouble, acc, started =>
      if c = '"' then shlexCore rest .top acc started
      else if c = '\\' then
        match rest with
        | [] => .error "No escaped character"
        | e :: rest2 =>
          if e = '"' ∨ e = '\\' then shlexCore rest2 .inDouble (e :: acc) started
          else shlexCore rest2 .inDouble (e :: '\\' :: acc) started
      else shlexCore rest .inDouble (c :: acc) started
termination_by cs _ _ _ => cs.length
decreasing_by all_goals simp_arith

/-- `shlex.split(s)`. -/
def shlexSplit (s : String) : Except String (List String) :=
  shlexCore s.data .top [] false

/-- Python dict assignment `redirects[redirect_type] = filename`: overwrite
the entry for the key in place when present (keys are unique in a dict, and
CPython keeps the original insertion position on overwrite), else append. -/
def redirUpsert : List (RedirOp × String) → RedirOp → String →
    List (RedirOp × String)
  | [], k, v => [(k, v)]
  | p :: d, k, v => if p.1 == k then (k, v) :: d else p :: redirUpsert d k v

/-- `redirects.get(op)`. -/
def lookupRedir (d : List (RedirOp × String)) (k : RedirOp) : Option String :=
  (d.find? (fun p => p.1 == k)).map Prod.snd

/-- The (operator, filename) extraction attempted for one redirection match:
take the text after the operator, strip it, shell-split it and use the first
token; `none` models both the empty-rest case and the
`except ValueError: pass` case. -/
def contribOf (cs : List Char) (m : RedirOp × Nat) : Option (RedirOp × String) :=
  let rest := pyStrip (cs.drop m.2)
  if rest.isEmpty then none
  else
    match shlexSplit (String.mk rest) with
    | .error _ => none
    | .ok [] => none
    | .ok (t :: _) => some (m.1, t)

/-- One iteration of `for match in reversed(redirect_matches)`:
record the extracted filename under its operator, if extraction succeeded. -/
def extractOneRedirect (cs : List Char) (d : List (RedirOp × String))
    (m : RedirOp × Nat) : List (RedirOp × String) :=
  match contribOf cs m with
  | none => d
  | some p => redirUpsert d p.1 p.2

/-- The full reversed-order redirection loop of `_parse_single_command`. -/
def extractRedirects (cs : List Char) : List (RedirOp × String) :=
  ((findRedirMatches cs 0).reverse).foldl (extractOneRedirect cs) []

/-- The successful (operator, filename) extractions of a stage, in
left-to-right match order (a specification-side view of the same loop). -/
def redirContribs (cs : List Char) : List (RedirOp × String) :=
  (findRedirMatches cs 0).filterMap (contribOf cs)

/-- One pipeline-stage command descriptor (the dict built by
`_parse_single_command`, with the flags later adjusted by `parse`). -/
structure CmdDesc where
  command : String
  args : List String
  redirects : List (RedirOp × String)
  background : Bool
  pipe_from : Bool
  pipe_to : Bool
  raw : String
deriving DecidableEq, Repr

/-- The `remaining` variable of `_parse_single_command`: when there are
redirection matches, the stage text with all operator matches deleted and
every recorded filename value deleted (in dict-value order); otherwise the
stage text unchanged.  (Replacing the empty string is the identity in Python,
modelled by the guard.) -/
def stageRemaining (cmdStr : String) : String :=
  let cs := cmdStr.data
  if (findRedirMatches cs 0).isEmpty then cmdStr
  else
    ((extractRedirects cs).map Prod.snd).foldl
      (fun r v => if v = "" then r else pyReplace r v)
      (String.mk (removeRedirOps cs))

/-- The token computation of `_parse_single_command`:
`try: tokens = shlex.split(remaining) except ValueError: remaining.split()`. -/
def stageTokens (remaining : String) : Except String (List String) :=
  match shlexSplit remaining with
  | .ok ts => .ok ts
  | .error _ => .ok (pySplit remaining.data)

/-- `_parse_single_command` (background/pipe flags still at their defaults). -/
def parseSingleCommandE (cmdStr : String) : Except String CmdDesc := do
  let redirects := extractRedirects cmdStr.data
  let tokens ← stageTokens (stageRemaining cmdStr)
  match tokens with
  | [] => pure { command := "", args := [], redirects := redirects,
                 background := false, pipe_from := false, pipe_to := false,
                 raw := cmdStr }
  | t :: ts => pure { command := t, args := ts, redirects := redirects,
                      background := false, pipe_from := false, pipe_to := false,
                      raw := cmdStr }

/-- Helper for `_split_pipes`: walks the line tracking the previous character
(for the `line[i-1] != '\\'` escape test), the in-quotes flag and the active
quote character, and the current (reversed) segment. -/
def splitPipesAux : List Char → Option Char → Bool → Option Char →
    List Char → List String
  | [], _, _, _, current =>
      if current.isEmpty then [] else [String.mk (pyStrip current.reverse)]
  | c :: rest, prev, inQ, qc, current =>
      let st2 : Bool × Option Char :=
        if (c = '"' ∨ c = '\'') ∧ prev ≠ some '\\' then
          if ¬inQ then (true, some c)
          else if some c = qc then (false, none)
          else (inQ, qc)
        else (inQ, qc)
      if c = '|' ∧ ¬st2.1 then
        if current.isEmpty then splitPipesAux rest (some c) st2.1 st2.2 []
        else String.mk (pyStrip current.reverse) ::
          splitPipesAux rest (some c) st2.1 st2.2 []
      else splitPipesAux rest (some c) st2.1 st2.2 (c :: current)

/-- `_split_pipes`: split the line on unquoted `|`, stripping each part. -/
def splitPipes (line : String) : List String :=
  splitPipesAux line.data none false none []

/-- `parse`: strip the line, handle empty input, strip a trailing `&`
(background), split on pipes and parse each stage, setting the
background/pipe-linkage flags. -/
def parse (line : String) : Except String (List CmdDesc) := do
  let line2 := String.mk (pyStrip line.data)
  if line2 = "" then pure []
  else
    let background := line2.data.getLast? == some '&'
    let line3 := if background then String.mk (pyStrip line2.data.dropLast)
                 else line2
    let parts := splitPipes line3
    let n := parts.length
    parts.enum.mapM (fun p => do
      let cmd ← parseSingleCommandE p.2
      pure { cmd with
        background := background && (p.1 == n - 1),
        pipe_from := !(p.1 == 0),
        pipe_to := decide (p.1 < n - 1) })

/-- An exact decimal number `mant / 10 ^ scale`: the model of the finite
values produced by Python's `float(...)` on plain decimal literals.
(Exponents, `inf`/`nan`, underscores and surrounding whitespace are outside
the model; floating-point rounding is idealised away, which is exact on all
the unit-sized values involved here.) -/
structure Dec where
  mant : Int
  scale : Nat
deriving DecidableEq, Repr

/-- Value of a decimal-digit string. -/
def digitsVal (ds : List Char) : Nat :=
  ds.foldl (fun acc c => acc * 10 + (c.toNat - '0'.toNat)) 0

/-- The optional leading sign of a numeric literal: the sign factor and the
remaining characters. -/
def stripSign (cs : List Char) : Int × List Char :=
  if cs.head? = some '-' then (-1, cs.tail)
  else if cs.head? = some '+' then (1, cs.tail)
  else (1, cs)

/-- The unsigned part of the `float(...)` model: digits with an optional
single fractional point (at least one digit overall). -/
def parseFloatCore (sgn : Int) (cs2 : List Char) : Option Dec :=
  let intPart := cs2.takeWhile Char.isDigit
  let rest := cs2.dropWhile Char.isDigit
  if rest.isEmpty then
    if intPart.isEmpty then none else some ⟨sgn * digitsVal intPart, 0⟩
  else if rest.head? = some '.' then
    let frac := rest.tail
    if frac.all Char.isDigit ∧ ¬(intPart.isEmpty ∧ frac.isEmpty) then
      some ⟨sgn * (digitsVal intPart * 10 ^ frac.length + digitsVal frac),
            frac.length⟩
    else none
  else none

/-- Model of Python `float(s)`: optional sign, then digits with an optional
single fractional point. -/
def parseFloat (s : String) : Option Dec :=
  parseFloatCore (stripSign s.data).1 (stripSign s.data).2

/-- Python `int(x)` on a decimal value: truncation toward zero. -/
def pyInt (d : Dec) : Int :=
  d.mant.tdiv (10 ^ d.scale)

/-- `value * multiplier` for a decimal value and an integer multiplier. -/
def decMulNat (d : Dec) (m : Nat) : Dec :=
  ⟨d.mant * m, d.scale⟩

/-- Python `str.endswith` on char lists. -/
def pyEndsWith (cs suffix : List Char) : Bool :=
  suffix == cs.drop (cs.length - suffix.length)

/-- The `units` dict of `_parse_memory`, in declaration (= iteration)
order: B, KB, MB, GB, TB with binary multipliers. -/
def memUnits : List (String × Nat) :=
  [("B", 1), ("KB", 1024), ("MB", 1024 ^ 2), ("GB", 1024 ^ 3), ("TB", 1024 ^ 4)]

/-- The suffix loop of `_parse_memory`: the first unit (in declaration order)
whose suffix matches and whose numeric prefix parses wins; a `float(...)`
failure (`except ValueError: pass`) moves on to the next unit. -/
def parseMemoryLoop : List (String × Nat) → List Char → Option Int
  | [], _ => none
  | (u, mult) :: restUnits, cs =>
    if pyEndsWith cs u.data then
      match parseFloat (String.mk (cs.take (cs.length - u.data.length))) with
      | some v => some (pyInt (decMulNat v mult))
      | none => parseMemoryLoop restUnits cs
    else parseMemoryLoop restUnits cs

/-- The ten decimal digit characters. -/
def digitChars : List Char :=
  ['0', '1', '2', '3', '4', '5', '6', '7', '8', '9']

/-- `_parse_memory`: uppercase the input, try the unit suffixes in
declaration order, interpret a bare number as megabytes, and return 0 for
anything unparseable. -/
def parse_memory (mem_str : String) : Int :=
  let up := mem_str.data.map Char.toUpper
  match parseMemoryLoop memUnits up with
  | some n => n
  | none =>
    match parseFloat (String.mk up) with
    | some v => pyInt (decMulNat v (1024 ^ 2))
    | none => 0

/-! ## src/executor.py -/

/-- The outcome of the `subprocess.Popen` call, abstracting over the OS: a
process handle (pid) or one of the launch exceptions the source
distinguishes. -/
inductive SpawnResult
  | ok (pid : Nat)
  | fileNotFound
  | permissionError
  | otherError (msg : String)
deriving DecidableEq, Repr

/-- What `execute` does, as observed by its caller: the returned value (with
`.error` for an uncaught exception), the diagnostics printed, and whether the
child was waited for. -/
structure ExecOutcome where
  result : Except String (Option Nat)
  messages : List String
  waited : Bool
deriving Repr

/-- `execute(cmd, job_id)`: spawn, then either return the handle immediately
(background) or wait for the child and return `None` (foreground);
`FileNotFoundError`, `PermissionError` and any other exception are caught,
reported with `print`, and yield `None`.  (The exact job-id interpolation of
the background message is elided.) -/
def execute (cmd : CmdDesc) (job_id : Option Nat) (sp : SpawnResult) :
    ExecOutcome :=
  match sp with
  | .ok pid =>
    if cmd.background then
      { result := .ok (some pid),
        messages := ["[Job] Started (PID: " ++ toString pid ++ ")"],
        waited := false }
    else
      { result := .ok none, messages := [], waited := true }
  | .fileNotFound =>
      { result := .ok none,
        messages := ["hpcshell: command not found: " ++ cmd.command],
        waited := false }
  | .permissionError =>
      { result := .ok none,
        messages := ["hpcshell: permission denied: " ++ cmd.command],
        waited := false }
  | .otherError e =>
      { result := .ok none,
        messages := ["hpcshell: error executing command: " ++ e],
        waited := false }

/-- `execute_with_resources(cmd, resources)`: the `Popen` call is outside any
`try` block, so a launch failure propagates to the caller as an exception;
when the spawn succeeds, every failure inside the constraint-application
block is caught and the handle is returned regardless. -/
def execute_with_resources (cmd : CmdDesc) (sp : SpawnResult) :
    Except String Nat :=
  match sp with
  | .ok pid => .ok pid
  | .fileNotFound => .error ("FileNotFoundError: " ++ cmd.command)
  | .permissionError => .error ("PermissionError: " ++ cmd.command)
  | .otherError e => .error e

/-- A sample foreground descriptor. -/
def demoCmd : CmdDesc :=
  { command := "ls", args := [], redirects := [], background := false,
    pipe_from := false, pipe_to := false, raw := "ls" }

/-! ## src/resource.py -/

/-- `collections.deque(maxlen := cap).append x` (for a deque that never
exceeds its capacity): append on the right, evicting from the left exactly
when full. -/
def dequeAppend {α : Type} (cap : Nat) (l : List α) (x : α) : List α :=
  (l ++ [x]).drop (l.length + 1 - cap)

/-- One cpu-history entry of `_add_to_history` (float payloads modelled as
integers; the ring mechanics are independent of the payload values). -/
structure CpuEntry where
  timestamp : Nat
  percent : Nat
  per_core : List Nat
deriving DecidableEq, Repr

/-- One memory-history entry. -/
structure MemEntry where
  timestamp : Nat
  percent : Nat
  used : Nat
deriving DecidableEq, Repr

/-- One disk-history entry (I/O byte deltas). -/
structure DiskEntry where
  timestamp : Nat
  read_bytes : Nat
  write_bytes : Nat
deriving DecidableEq, Repr

/-- One network-history entry (I/O byte deltas). -/
structure NetEntry where
  timestamp : Nat
  sent_bytes : Nat
  recv_bytes : Nat
deriving DecidableEq, Repr

/-- The fields of a `get_system_stats` snapshot consumed by
`_add_to_history`; the disk/network deltas are absent on the very first call,
when there is no previous baseline. -/
structure StatsSnapshot where
  timestamp : Nat
  cpu_percent : Nat
  cpu_per_core : List Nat
  memory_percent : Nat
  memory_used : Nat
  disk_delta : Option (Nat × Nat)
  net_delta : Option (Nat × Nat)
deriving DecidableEq, Repr

/-- The four per-metric history rings of `ResourceMonitor`, with the shared
capacity `history_size` (default 3600). -/
structure MonitorState where
  history_size : Nat
  cpu : List CpuEntry
  memory : List MemEntry
  disk : List DiskEntry
  network : List NetEntry
deriving DecidableEq, Repr

/-- `ResourceMonitor.__init__(history_size)`: four empty rings. -/
def MonitorState.init (history_size : Nat) : MonitorState :=
  { history_size := history_size, cpu := [], memory := [], disk := [],
    network := [] }

/-- `_add_to_history(stats)`: append the derived entries — cpu and memory
always, disk and network only when the corresponding delta is present. -/
def addToHistory (st : MonitorState) (s : StatsSnapshot) : MonitorState :=
  { st with
    cpu := dequeAppend st.history_size st.cpu
      ⟨s.timestamp, s.cpu_percent, s.cpu_per_core⟩,
    memory := dequeAppend st.history_size st.memory
      ⟨s.timestamp, s.memory_percent, s.memory_used⟩,
    disk := match s.disk_delta with
      | some rw => dequeAppend st.history_size st.disk
          ⟨s.timestamp, rw.1, rw.2⟩
      | none => st.disk,
    network := match s.net_delta with
      | some sr => dequeAppend st.history_size st.network
          ⟨s.timestamp, sr.1, sr.2⟩
      | none => st.network }

end ASTRA

namespace ASTRA

/-! ## Theorems about src/queue.py -/

theorem findJob_map_of_id_preserving (jobs : List Job) (i : Nat) (g : Job → Job)
    (hg : ∀ j, (g j).job_id = j.job_id) :
    findJob (jobs.map g) i = (findJob jobs i).map g := by
  unfold findJob
  rw [List.find?_map]
  have hfun : ((fun j : Job => j.job_id == i) ∘ g) = (fun j : Job => j.job_id == i) := by
    funext j
    simp [Function.comp, hg]
  rw [hfun]

theorem find?_eq_some_of_found {p : Job → Bool} {l : List Job} {j : Job}
    (h : l.find? p = some j) : p j = true :=
  List.find?_some h

unseal List.merge List.mergeSort in
/-- C1: the claim asserts that `start_job` on a `completed` or `cancelled`
job does not set it to `running`.  Counterexample: after submitting job 1 and
cancelling it (status `cancelled`), `start_job 1` returns `True` and sets the
status to `running`. -/
theorem C1_counterexample :
    ((findJob exCancelled.jobs 1).map Job.status = some .cancelled) ∧
    (start_job exCancelled 1 7).2 = true ∧
    ((findJob (start_job exCancelled 1 7).1.jobs 1).map Job.status =
      some .running) := by
  refine ⟨rfl, rfl, rfl⟩

/-- C1 (amended): the transitions the code actually performs are: `start_job`
sets any existing job to `running` (recording `started_at`) regardless of its
current status; `complete_job` sets any existing job to `completed` regardless
of its current status; `cancel_job` sets an existing job to `cancelled` unless
its status is `running` or `completed`, in which case it returns false and
changes nothing; all three return false without side effects on unknown ids.
The queued→running→{completed,failed} / queued→cancelled state machine is not
enforced for `start_job`/`complete_job`. -/
theorem C1_amended_transitions :
    (∀ st id now j, findJob st.jobs id = some j →
      (start_job st id now).2 = true ∧
      findJob (start_job st id now).1.jobs id =
        some { j with status := .running, started_at := some now }) ∧
    (∀ st id rc now j, findJob st.jobs id = some j →
      (complete_job st id rc now).2 = true ∧
      findJob (complete_job st id rc now).1.jobs id =
        some { j with status := .completed, completed_at := some now,
                      return_code := some rc }) ∧
    (∀ st id j, findJob st.jobs id = some j →
      (j.status = .running ∨ j.status = .completed) →
      cancel_job st id = (st, false)) := by
  refine ⟨?_, ?_, ?_⟩
  · intro st id now j hj
    have hpj : (j.job_id == id) = true := find?_eq_some_of_found hj
    unfold start_job
    rw [hj]
    have hmap := findJob_map_of_id_preserving st.jobs id
      (fun j2 => if j2.job_id == id then
        { j2 with status := .running, started_at := some now } else j2)
      (by intro j2; by_cases h2 : (j2.job_id == id) = true <;> simp [h2])
    refine ⟨rfl, ?_⟩
    rw [hmap, hj, Option.map_some', if_pos hpj]
  · intro st id rc now j hj
    have hpj : (j.job_id == id) = true := find?_eq_some_of_found hj
    unfold complete_job
    rw [hj]
    have hmap := findJob_map_of_id_preserving st.jobs id
      (fun j2 => if j2.job_id == id then
        { j2 with status := .completed, completed_at := some now,
                  return_code := some rc } else j2)
      (by intro j2; by_cases h2 : (j2.job_id == id) = true <;> simp [h2])
    refine ⟨rfl, ?_⟩
    rw [hmap, hj, Option.map_some', if_pos hpj]
  · intro st id j hj hst
    unfold cancel_job
    rw [hj]
    rcases hst with h | h <;> simp [h]

unseal List.merge List.mergeSort in
/-- C1 amended witness: instantiation at the concrete cancelled-job state. -/
theorem C1_amended_witness :
    findJob exCancelled.jobs 1 = some exCancelledJob ∧
    ((start_job exCancelled 1 7).2 = true ∧
      findJob (start_job exCancelled 1 7).1.jobs 1 =
        some { exCancelledJob with status := .running, started_at := some 7 }) :=
  ⟨rfl, C1_amended_transitions.1 exCancelled 1 7 exCancelledJob rfl⟩

unseal List.merge List.mergeSort in
/-- C2: the claim asserts that `cancel_job` on a job whose status is
`cancelled` returns false.  Counterexample: after submitting job 1 and
cancelling it once, a second `cancel_job 1` returns `True` (the guard only
rejects `running` and `completed`). -/
theorem C2_counterexample :
    ((findJob exCancelled.jobs 1).map Job.status = some .cancelled) ∧
    (cancel_job exCancelled 1).2 = true := by
  exact ⟨rfl, rfl⟩

/-- C2 (amended): `cancel_job` on a job whose status is `running` or
`completed` returns false and leaves the whole state unchanged; on an existing
job whose status is `cancelled` or `failed` it returns true (re-setting the
status to `cancelled`); `cancel_job`, `start_job` and `complete_job` on a
never-allocated id return false and leave the state unchanged. -/
theorem C2_amended_guard :
    (∀ st id j, findJob st.jobs id = some j →
      (j.status = .running ∨ j.status = .completed) →
      cancel_job st id = (st, false)) ∧
    (∀ st id j, findJob st.jobs id = some j →
      (j.status = .cancelled ∨ j.status = .failed) →
      (cancel_job st id).2 = true ∧
      findJob (cancel_job st id).1.jobs id =
        some { j with status := .cancelled }) ∧
    (∀ st id now rc, findJob st.jobs id = none →
      cancel_job st id = (st, false) ∧ start_job st id now = (st, false) ∧
      complete_job st id rc now = (st, false)) := by
  refine ⟨?_, ?_, ?_⟩
  · intro st id j hj hst
    unfold cancel_job
    rw [hj]
    rcases hst with h | h <;> simp [h]
  · intro st id j hj hst
    have hpj : (j.job_id == id) = true := find?_eq_some_of_found hj
    have hne : ¬(j.status = .running ∨ j.status = .completed) := by
      rcases hst with h | h <;> simp [h]
    unfold cancel_job
    rw [hj]
    dsimp only
    rw [if_neg hne]
    have hmap := findJob_map_of_id_preserving st.jobs id
      (fun j2 => if j2.job_id == id then { j2 with status := .cancelled } else j2)
      (by intro j2; by_cases h2 : (j2.job_id == id) = true <;> simp [h2])
    refine ⟨rfl, ?_⟩
    rw [hmap, hj, Option.map_some', if_pos hpj]
  · intro st id now rc h
    unfold cancel_job start_job complete_job
    rw [h]
    exact ⟨rfl, rfl, rfl⟩

unseal List.merge List.mergeSort in
/-- C2 amended witness: instantiations at a running job (guard rejects), at a
cancelled job (guard does not reject), and at a never-allocated id. -/
theorem C2_amended_witness :
    (findJob exRunning.jobs 1 = some exRunningJob ∧
      cancel_job exRunning 1 = (exRunning, false)) ∧
    (findJob exCancelled.jobs 1 = some exCancelledJob ∧
      (cancel_job exCancelled 1).2 = true) ∧
    (findJob JobQueue.init.jobs 5 = none ∧
      cancel_job JobQueue.init 5 = (JobQueue.init, false) ∧
      start_job JobQueue.init 5 0 = (JobQueue.init, false) ∧
      complete_job JobQueue.init 5 0 0 = (JobQueue.init, false)) :=
  ⟨⟨rfl, C2_amended_guard.1 exRunning 1 exRunningJob rfl (Or.inl rfl)⟩,
   ⟨rfl, (C2_amended_guard.2.1 exCancelled 1 exCancelledJob rfl (Or.inl rfl)).1⟩,
   rfl, C2_amended_guard.2.2 JobQueue.init 5 0 0 rfl⟩

theorem keyLe_trans (jobs : List Job) :
    ∀ a b c, keyLe jobs a b → keyLe jobs b c → keyLe jobs a c := by
  intro a b c h1 h2
  simp only [keyLe, decide_eq_true_eq] at *
  omega

theorem keyLe_total (jobs : List Job) :
    ∀ a b, (keyLe jobs a b || keyLe jobs b a) = true := by
  intro a b
  simp only [keyLe, Bool.or_eq_true, decide_eq_true_eq]
  omega

theorem sortKey_map_of_preserving (jobs : List Job) (g : Job → Job)
    (hid : ∀ j, (g j).job_id = j.job_id)
    (hpr : ∀ j, (g j).priority = j.priority)
    (hca : ∀ j, (g j).created_at = j.created_at) (i : Nat) :
    sortKey (jobs.map g) i = sortKey jobs i := by
  unfold sortKey
  rw [findJob_map_of_id_preserving jobs i g hid]
  cases findJob jobs i with
  | none => rfl
  | some j => simp [hpr, hca]

theorem keyLe_map_of_preserving (jobs : List Job) (g : Job → Job)
    (hid : ∀ j, (g j).job_id = j.job_id)
    (hpr : ∀ j, (g j).priority = j.priority)
    (hca : ∀ j, (g j).created_at = j.created_at) (a b : Nat) :
    keyLe (jobs.map g) a b = keyLe jobs a b := by
  unfold keyLe
  rw [sortKey_map_of_preserving jobs g hid hpr hca a,
      sortKey_map_of_preserving jobs g hid hpr hca b]

theorem findJob_append (jobs₁ jobs₂ : List Job) (i : Nat) :
    findJob (jobs₁ ++ jobs₂) i = (findJob jobs₁ i).or (findJob jobs₂ i) := by
  unfold findJob
  exact List.find?_append

theorem findJob_append_of_isSome {jobs : List Job} {i : Nat}
    (h : (findJob jobs i).isSome = true) (l2 : List Job) :
    findJob (jobs ++ l2) i = findJob jobs i := by
  rw [findJob_append]
  obtain ⟨j, hj⟩ := Option.isSome_iff_exists.mp h
  rw [hj]
  rfl

theorem findJob_fresh {jobs : List Job} {n : Nat}
    (h : ∀ j ∈ jobs, j.job_id < n) : findJob jobs n = none := by
  unfold findJob
  rw [List.find?_eq_none]
  intro j hj
  have := h j hj
  simp only [beq_iff_eq]
  omega

theorem findJob_append_fresh {jobs : List Job} {n : Nat}
    (h : ∀ j ∈ jobs, j.job_id < n) (nj : Job) (hnj : nj.job_id = n) :
    findJob (jobs ++ [nj]) n = some nj := by
  rw [findJob_append, findJob_fresh h]
  unfold findJob
  simp [List.find?, hnj]

theorem keyLe_append_of_isSome {jobs : List Job} {a b : Nat}
    (ha : (findJob jobs a).isSome = true) (hb : (findJob jobs b).isSome = true)
    (l2 : List Job) :
    keyLe (jobs ++ l2) a b = keyLe jobs a b := by
  unfold keyLe sortKey
  rw [findJob_append_of_isSome ha, findJob_append_of_isSome hb]

theorem QInv_update_general (st : JobQueue) (h : QInv st) (g : Job → Job)
    (hid : ∀ j, (g j).job_id = j.job_id)
    (hpr : ∀ j, (g j).priority = j.priority)
    (hca : ∀ j, (g j).created_at = j.created_at)
    (hfl : ∀ j, j.status ≠ .failed → (g j).status ≠ .failed)
    (qs : String → List Nat)
    (hsub : ∀ q, List.Sublist (qs q) (st.queues q)) :
    QInv { jobs := st.jobs.map g, queues := qs,
           next_job_id := st.next_job_id } := by
  obtain ⟨hb, hal, hs, hf⟩ := h
  refine ⟨?_, ?_, ?_, ?_⟩
  · intro j hj
    obtain ⟨j0, hj0, rfl⟩ := List.mem_map.mp hj
    rw [hid j0]
    exact hb j0 hj0
  · intro q id hidq
    have hmem : id ∈ st.queues q := (hsub q).mem hidq
    have := hal q id hmem
    rw [findJob_map_of_id_preserving st.jobs id g hid]
    obtain ⟨j, hj⟩ := Option.isSome_iff_exists.mp this
    rw [hj]
    rfl
  · intro q
    have hpw := (hs q).sublist (hsub q)
    exact hpw.imp (fun {a b} hab => by
      rw [keyLe_map_of_preserving st.jobs g hid hpr hca a b]
      exact hab)
  · intro j hj
    obtain ⟨j0, hj0, rfl⟩ := List.mem_map.mp hj
    exact hfl j0 (hf j0 hj0)

theorem QInv_start (st : JobQueue) (h : QInv st) (id now : Nat) :
    QInv (start_job st id now).1 := by
  unfold start_job
  cases hfind : findJob st.jobs id with
  | none => exact h
  | some j =>
    exact QInv_update_general st h _
      (fun j2 => by by_cases h2 : (j2.job_id == id) = true <;> simp [h2])
      (fun j2 => by by_cases h2 : (j2.job_id == id) = true <;> simp [h2])
      (fun j2 => by by_cases h2 : (j2.job_id == id) = true <;> simp [h2])
      (fun j2 hne => by by_cases h2 : (j2.job_id == id) = true <;> simp [h2, hne])
      st.queues (fun q => List.Sublist.refl _)

theorem QInv_complete (st : JobQueue) (h : QInv st) (id : Nat) (rc : Int)
    (now : Nat) : QInv (complete_job st id rc now).1 := by
  unfold complete_job
  cases hfind : findJob st.jobs id with
  | none => exact h
  | some j =>
    exact QInv_update_general st h _
      (fun j2 => by by_cases h2 : (j2.job_id == id) = true <;> simp [h2])
      (fun j2 => by by_cases h2 : (j2.job_id == id) = true <;> simp [h2])
      (fun j2 => by by_cases h2 : (j2.job_id == id) = true <;> simp [h2])
      (fun j2 hne => by by_cases h2 : (j2.job_id == id) = true <;> simp [h2, hne])
      (fun q => (st.queues q).erase id) (fun q => List.erase_sublist id _)

theorem QInv_cancel (st : JobQueue) (h : QInv st) (id : Nat) :
    QInv (cancel_job st id).1 := by
  unfold cancel_job
  cases hfind : findJob st.jobs id with
  | none => exact h
  | some j =>
    dsimp only
    by_cases hguard : j.status = Status.running ∨ j.status = Status.completed
    · rw [if_pos hguard]
      exact h
    · rw [if_neg hguard]
      exact QInv_update_general st h _
        (fun j2 => by by_cases h2 : (j2.job_id == id) = true <;> simp [h2])
        (fun j2 => by by_cases h2 : (j2.job_id == id) = true <;> simp [h2])
        (fun j2 => by by_cases h2 : (j2.job_id == id) = true <;> simp [h2])
        (fun j2 hne => by by_cases h2 : (j2.job_id == id) = true <;> simp [h2, hne])
        (fun q => (st.queues q).erase id) (fun q => List.erase_sublist id _)

theorem submit_job_jobs (st : JobQueue) (c : String) (a : List String)
    (q p : String) (co : Nat) (m : String) (now : Nat) :
    (submit_job st c a q p co m now).1.jobs =
      st.jobs ++ [submittedJob st c a q p co m now] := rfl

theorem submit_job_next (st : JobQueue) (c : String) (a : List String)
    (q p : String) (co : Nat) (m : String) (now : Nat) :
    (submit_job st c a q p co m now).1.next_job_id = st.next_job_id + 1 := rfl

theorem submit_job_queues (st : JobQueue) (c : String) (a : List String)
    (q p : String) (co : Nat) (m : String) (now : Nat) (q2 : String) :
    (submit_job st c a q p co m now).1.queues q2 =
      if q2 = q then
        (st.queues q ++ [st.next_job_id]).mergeSort
          (keyLe (st.jobs ++ [submittedJob st c a q p co m now]))
      else st.queues q2 := by
  unfold submit_job sort_queue
  dsimp only
  by_cases hq : q2 = q <;> simp [hq]

theorem QInv_submit (st : JobQueue) (h : QInv st) (c : String)
    (a : List String) (q p : String) (co : Nat) (m : String) (now : Nat) :
    QInv (submit_job st c a q p co m now).1 := by
  obtain ⟨hb, hal, hs, hf⟩ := h
  refine ⟨?_, ?_, ?_, ?_⟩
  · intro j hj
    rw [submit_job_jobs] at hj
    rw [submit_job_next]
    rcases List.mem_append.mp hj with hj | hj
    · exact Nat.lt_succ_of_lt (hb j hj)
    · rw [List.mem_singleton.mp hj]
      exact Nat.lt_succ_self _
  · intro q2 id hidq
    rw [submit_job_queues] at hidq
    rw [submit_job_jobs]
    by_cases hq : q2 = q
    · rw [if_pos hq] at hidq
      have hidq2 := (List.mergeSort_perm _ _).mem_iff.mp hidq
      rcases List.mem_append.mp hidq2 with hmem | hmem
      · have := hal q id hmem
        rw [findJob_append_of_isSome this]
        exact this
      · rw [List.mem_singleton.mp hmem, findJob_append_fresh hb _ rfl]
        rfl
    · rw [if_neg hq] at hidq
      have := hal q2 id hidq
      rw [findJob_append_of_isSome this]
      exact this
  · intro q2
    rw [submit_job_jobs]
    by_cases hq : q2 = q
    · have hqe : (submit_job st c a q p co m now).1.queues q2 =
          (st.queues q ++ [st.next_job_id]).mergeSort
            (keyLe (st.jobs ++ [submittedJob st c a q p co m now])) := by
        rw [submit_job_queues, if_pos hq]
      rw [hqe]
      exact List.sorted_mergeSort (keyLe_trans _) (keyLe_total _) _
    · have hqe : (submit_job st c a q p co m now).1.queues q2 = st.queues q2 := by
        rw [submit_job_queues, if_neg hq]
      rw [hqe]
      exact (hs q2).imp_of_mem (fun {x y} hx hy hxy => by
        rw [keyLe_append_of_isSome (hal q2 x hx) (hal q2 y hy)]
        exact hxy)
  · intro j hj
    rw [submit_job_jobs] at hj
    rcases List.mem_append.mp hj with hj | hj
    · exact hf j hj
    · rw [List.mem_singleton.mp hj]
      intro hcon
      exact absurd hcon (by simp [submittedJob])

theorem QInv_applyOp (st : JobQueue) (h : QInv st) (op : Op) :
    QInv (applyOp st op) := by
  cases op with
  | submit c a q p co m now => exact QInv_submit st h c a q p co m now
  | start id now => exact QInv_start st h id now
  | complete id rc now => exact QInv_complete st h id rc now
  | cancel id => exact QInv_cancel st h id

theorem QInv_foldl :
    ∀ (ops : List Op) (st : JobQueue), QInv st → QInv (ops.foldl applyOp st)
  | [], _, h => h
  | op :: ops, st, h => QInv_foldl ops _ (QInv_applyOp st h op)

theorem QInv_init : QInv JobQueue.init := by
  refine ⟨?_, ?_, ?_, ?_⟩ <;> intro <;> simp [JobQueue.init]

theorem QInv_run (ops : List Op) : QInv (run ops) :=
  QInv_foldl ops _ QInv_init

unseal List.merge List.mergeSort in
/-- C3: after every sequence of `JobQueue` operations, every queue's job-id
list is sorted ascending by (priority value, created_at) with
critical(0) < high(1) < normal(2) < low(3); submitting three jobs with
priorities [low, high, normal] to one queue yields head-of-queue order
high, normal, low; two equal-priority jobs submitted at the same timestamp
stay in FIFO (submission) order thanks to sort stability. -/
theorem C3_queue_sorted_and_order :
    (∀ ops q, ((run ops).queues q).Pairwise
        (fun a b => keyLe (run ops).jobs a b = true)) ∧
    exLHN.queues "default" = [2, 3, 1] ∧
    (exLHN.queues "default").map
        (fun id => (findJob exLHN.jobs id).map Job.priority) =
      [some .HIGH, some .NORMAL, some .LOW] ∧
    exFIFO.queues "default" = [1, 2] :=
  ⟨fun ops q => (QInv_run ops).2.2.1 q, rfl, rfl, rfl⟩

/-- C9: in every reachable `JobQueue` state no job has status `failed` (no
operation ever assigns it), so `get_jobs` filtered on `failed` returns the
empty list and `get_queue_stats` reports a `failed` count of 0 for every
queue name. -/
theorem C9_no_failed_status :
    (∀ ops, ∀ j ∈ (run ops).jobs, j.status ≠ .failed) ∧
    (∀ ops, get_jobs (run ops) none (some .failed) = []) ∧
    (∀ ops q, (get_queue_stats (run ops) q).failed = 0) := by
  have key : ∀ ops, ∀ j ∈ (run ops).jobs, j.status ≠ Status.failed :=
    fun ops => (QInv_run ops).2.2.2
  refine ⟨key, ?_, ?_⟩
  · intro ops
    unfold get_jobs
    dsimp only
    rw [List.filter_eq_nil_iff]
    intro j hj
    simp only [beq_iff_eq]
    exact key ops j hj
  · intro ops q
    unfold get_queue_stats
    dsimp only
    rw [List.countP_eq_zero]
    intro j hj
    obtain ⟨id, hid, hfind⟩ := List.mem_filterMap.mp hj
    have hjmem : j ∈ (run ops).jobs := List.mem_of_find?_eq_some hfind
    simp only [beq_iff_eq]
    exact key ops j hjmem

/-! ## Theorems about src/parser.py -/

theorem stageTokens_ne_error (r : String) (e : String) :
    stageTokens r ≠ .error e := by
  unfold stageTokens
  cases shlexSplit r <;> simp

theorem parseSingleCommandE_ok (s : String) :
    ∃ c, parseSingleCommandE s = .ok c := by
  unfold parseSingleCommandE
  cases hst : stageTokens (stageRemaining s) with
  | error e => exact absurd hst (stageTokens_ne_error _ e)
  | ok ts =>
    cases ts with
    | nil => exact ⟨_, rfl⟩
    | cons t ts => exact ⟨_, rfl⟩

theorem mapM_ok {α β : Type} (f : α → Except String β)
    (hf : ∀ a, ∃ b, f a = .ok b) :
    ∀ l : List α, ∃ bs, l.mapM f = .ok bs := by
  intro l
  induction l with
  | nil => exact ⟨[], rfl⟩
  | cons a l ih =>
    obtain ⟨b, hb⟩ := hf a
    obtain ⟨bs, hbs⟩ := ih
    refine ⟨b :: bs, ?_⟩
    rw [List.mapM_cons, hb, hbs]
    rfl

unseal shlexCore removeOccurrences in
/-- C7: `parse` is total: for every input line — including lines with
unbalanced quotes and malformed redirection filenames — it returns a list of
command descriptors and never propagates an exception; when quote-aware
tokenisation (`shlex.split`) raises on an unbalanced quote, the stage falls
back to naive whitespace splitting, as shown by the concrete degenerate
input. -/
theorem C7_parse_total :
    (∀ line, ∃ cmds, parse line = Except.ok cmds) ∧
    parse "echo 'abc" = Except.ok
      [{ command := "echo", args := ["'abc"], redirects := [],
         background := false, pipe_from := false, pipe_to := false,
         raw := "echo 'abc" }] := by
  constructor
  · intro line
    unfold parse
    dsimp only
    split
    · exact ⟨[], rfl⟩
    · apply mapM_ok
      intro p
      obtain ⟨c, hc⟩ := parseSingleCommandE_ok p.2
      exact ⟨_, by rw [hc]; rfl⟩
  · rfl

theorem lookupRedir_upsert (d : List (RedirOp × String)) (a : RedirOp)
    (v : String) (k : RedirOp) :
    lookupRedir (redirUpsert d a v) k =
      if a == k then some v else lookupRedir d k := by
  induction d with
  | nil =>
    by_cases hak : (a == k) = true <;>
      simp [redirUpsert, lookupRedir, hak]
  | cons p d ih =>
    by_cases hpa : (p.1 == a) = true
    · have hpa' : p.1 = a := by simpa using hpa
      by_cases hak : (a == k) = true
      · simp [redirUpsert, hpa, lookupRedir, hak]
      · have hpk : (p.1 == k) = false := by
          rw [Bool.eq_false_iff]
          simp only [ne_eq, beq_iff_eq] at hak ⊢
          rw [hpa']
          exact hak
        simp [redirUpsert, hpa, lookupRedir, hak, hpk]
    · by_cases hpk : (p.1 == k) = true
      · have hak : (a == k) = false := by
          rw [Bool.eq_false_iff]
          simp only [ne_eq, beq_iff_eq] at hpa hpk ⊢
          intro hcon
          exact hpa (hpk.trans hcon.symm)
        simp [redirUpsert, hpa, lookupRedir, hpk, hak]
      · have ih2 := ih
        simp only [lookupRedir] at ih2
        simp [redirUpsert, hpa, lookupRedir, hpk, ih2]

theorem foldl_extractOne_eq (cs : List Char) :
    ∀ (ms : List (RedirOp × Nat)) (d : List (RedirOp × String)),
      ms.foldl (extractOneRedirect cs) d =
        (ms.filterMap (contribOf cs)).foldl
          (fun d p => redirUpsert d p.1 p.2) d := by
  intro ms
  induction ms with
  | nil => intro d; rfl
  | cons m ms ih =>
    intro d
    rw [List.foldl_cons, List.filterMap_cons]
    cases hc : contribOf cs m with
    | none =>
      simp only [extractOneRedirect, hc]
      exact ih d
    | some p =>
      simp only [extractOneRedirect, hc, List.foldl_cons]
      exact ih _

theorem lookup_foldl_upsert (k : RedirOp) (l : List (RedirOp × String)) :
    ∀ d, lookupRedir (l.foldl (fun d p => redirUpsert d p.1 p.2) d) k =
      ((l.filter (fun p => p.1 == k)).getLast?.map Prod.snd).or
        (lookupRedir d k) := by
  induction l using List.reverseRecOn with
  | nil => intro d; rfl
  | append_singleton l p ih =>
    intro d
    rw [List.foldl_append, List.foldl_cons, List.foldl_nil, lookupRedir_upsert,
        List.filter_append, ih d]
    by_cases hpk : (p.1 == k) = true
    · rw [if_pos hpk]
      have hfp : List.filter (fun p => p.1 == k) [p] = [p] := by
        simp [List.filter_cons, List.filter_nil, hpk]
      rw [hfp, List.getLast?_concat]
      rfl
    · rw [if_neg hpk]
      have hfp : List.filter (fun p => p.1 == k) [p] = [] := by
        simp [List.filter_cons, List.filter_nil, hpk]
      rw [hfp, List.append_nil]

theorem lookup_extractRedirects (cs : List Char) (k : RedirOp) :
    lookupRedir (extractRedirects cs) k =
      ((redirContribs cs).filter (fun p => p.1 == k)).head?.map Prod.snd := by
  unfold extractRedirects redirContribs
  rw [foldl_extractOne_eq, List.filterMap_reverse, lookup_foldl_upsert,
      List.filter_reverse, List.getLast?_reverse]
  cases ((List.filterMap (contribOf cs) (findRedirMatches cs 0)).filter
      (fun p => p.1 == k)).head? <;> rfl

theorem parseSingleCommandE_redirects (s : String) :
    (parseSingleCommandE s).map (fun c => c.redirects) =
      .ok (extractRedirects s.data) := by
  unfold parseSingleCommandE
  cases hst : stageTokens (stageRemaining s) with
  | error e => exact absurd hst (stageTokens_ne_error _ e)
  | ok ts =>
    cases ts with
    | nil => rfl
    | cons t ts => rfl

unseal shlexCore removeOccurrences in
/-- C4: the claim asserts that when one stage repeats a redirection operator,
the filename recorded for it comes from the last (rightmost) occurrence.
Counterexample: in `cmd > a > b` the successful extractions are
`(>, "a")` then `(>, "b")` left-to-right, yet the recorded filename is `"a"`,
from the first (leftmost) occurrence — the matches are processed
right-to-left and each processed match overwrites the dict entry, so the
leftmost one wins. -/
theorem C4_counterexample :
    redirContribs ("cmd > a > b".data) = [(.rOut, "a"), (.rOut, "b")] ∧
    (parseSingleCommandE "cmd > a > b").map
        (fun c => lookupRedir c.redirects .rOut) = .ok (some "a") ∧
    (some "a" : Option String) ≠ some "b" :=
  ⟨rfl, rfl, by decide⟩

unseal shlexCore removeOccurrences in
/-- C4 (amended): when a stage contains the same redirection operator more
than once, the filename recorded in the redirect map is the one from the
first (leftmost) occurrence whose following token extracts successfully:
the reversed-order processing loop overwrites earlier-processed (more
rightward) matches, so in general
`lookup (redirects of stage) op = head of the left-to-right successful
extractions for op`. -/
theorem C4_amended_first_wins :
    (∀ s k, (parseSingleCommandE s).map (fun c => lookupRedir c.redirects k) =
      .ok (((redirContribs s.data).filter
        (fun p => p.1 == k)).head?.map Prod.snd)) ∧
    (parseSingleCommandE "cmd > a > b").map
        (fun c => lookupRedir c.redirects .rOut) = .ok (some "a") := by
  constructor
  · intro s k
    have h1 := parseSingleCommandE_redirects s
    cases hp : parseSingleCommandE s with
    | error e =>
      obtain ⟨c, hc⟩ := parseSingleCommandE_ok s
      rw [hp] at hc
      cases hc
    | ok c =>
      rw [hp] at h1
      have h2 : (Except.ok c.redirects : Except String (List (RedirOp × String))) =
          Except.ok (extractRedirects s.data) := h1
      have hred := Except.ok.inj h2
      show Except.ok (lookupRedir c.redirects k) = _
      rw [hred, lookup_extractRedirects]
  · rfl

/-! ## Theorems about `_parse_memory` -/

theorem digitChar_facts {c : Char} (h : c ∈ digitChars) :
    c.isDigit = true ∧ c.toUpper = c ∧ c ≠ '-' ∧ c ≠ '+' := by
  fin_cases h <;> exact ⟨rfl, rfl, by decide, by decide⟩

theorem map_toUpper_digits (ds : List Char) (h : ∀ c ∈ ds, c ∈ digitChars) :
    ds.map Char.toUpper = ds := by
  induction ds with
  | nil => rfl
  | cons d ds ih =>
    rw [List.map_cons, (digitChar_facts (h d (List.mem_cons_self d ds))).2.1,
        ih (fun c hc => h c (List.mem_cons_of_mem _ hc))]

theorem takeWhile_digits (ds : List Char) (h : ∀ c ∈ ds, c.isDigit = true) :
    ds.takeWhile Char.isDigit = ds ∧ ds.dropWhile Char.isDigit = [] := by
  induction ds with
  | nil => exact ⟨rfl, rfl⟩
  | cons d ds ih =>
    obtain ⟨h1, h2⟩ := ih (fun c hc => h c (List.mem_cons_of_mem _ hc))
    have hd := h d (List.mem_cons_self d ds)
    rw [List.takeWhile_cons, List.dropWhile_cons]
    simp [hd, h1, h2]

theorem takeWhile_digits_append (ds l : List Char)
    (h : ∀ c ∈ ds, c.isDigit = true) :
    (ds ++ l).takeWhile Char.isDigit = ds ++ l.takeWhile Char.isDigit ∧
    (ds ++ l).dropWhile Char.isDigit = l.dropWhile Char.isDigit := by
  induction ds with
  | nil => exact ⟨rfl, rfl⟩
  | cons d ds ih =>
    obtain ⟨h1, h2⟩ := ih (fun c hc => h c (List.mem_cons_of_mem _ hc))
    have hd := h d (List.mem_cons_self d ds)
    rw [List.cons_append, List.takeWhile_cons, List.dropWhile_cons]
    simp [hd, h1, h2]

theorem drop_append_len (l1 l2 : List Char) (n : Nat) (h : n = l1.length) :
    (l1 ++ l2).drop n = l2 := by
  subst h
  exact List.drop_left l1 l2

theorem take_append_len (l1 l2 : List Char) (n : Nat) (h : n = l1.length) :
    (l1 ++ l2).take n = l1 := by
  subst h
  exact List.take_left l1 l2

theorem pyEndsWith_suffix (l1 suf : List Char) :
    pyEndsWith (l1 ++ suf) suf = true := by
  unfold pyEndsWith
  rw [drop_append_len l1 suf _ (by simp [List.length_append])]
  simp

theorem pyEndsWith_eq_of_len (l1 l2 suf : List Char)
    (h : l2.length = suf.length) :
    pyEndsWith (l1 ++ l2) suf = (suf == l2) := by
  unfold pyEndsWith
  rw [drop_append_len l1 l2 _ (by rw [List.length_append, ← h]; omega)]

theorem stripSign_no_sign (d : Char) (l : List Char) (h1 : d ≠ '-')
    (h2 : d ≠ '+') : stripSign (d :: l) = (1, d :: l) := by
  unfold stripSign
  rw [if_neg (by simp [h1]), if_neg (by simp [h2])]

theorem parseFloatCore_digits (ds : List Char) (hne : ds ≠ [])
    (hdig : ∀ c ∈ ds, c.isDigit = true) :
    parseFloatCore 1 ds = some ⟨(digitsVal ds : Int), 0⟩ := by
  have htw := takeWhile_digits ds hdig
  unfold parseFloatCore
  dsimp only
  rw [htw.1, htw.2]
  obtain ⟨d, ds', rfl⟩ := List.exists_cons_of_ne_nil hne
  simp

theorem parseFloatCore_digits_G (ds : List Char)
    (hdig : ∀ c ∈ ds, c.isDigit = true) :
    parseFloatCore 1 (ds ++ ['G']) = none := by
  have htw := takeWhile_digits_append ds ['G'] hdig
  unfold parseFloatCore
  dsimp only
  rw [htw.1, htw.2]
  simp [List.takeWhile_cons, List.dropWhile_cons,
    show ('G' : Char).isDigit = false from rfl,
    show ¬(('G' : Char) = '.') from by decide]

theorem parseFloat_digits (ds : List Char) (hne : ds ≠ [])
    (h : ∀ c ∈ ds, c ∈ digitChars) :
    parseFloat (String.mk ds) = some ⟨(digitsVal ds : Int), 0⟩ := by
  obtain ⟨d, ds', rfl⟩ := List.exists_cons_of_ne_nil hne
  have hd := digitChar_facts (h d (List.mem_cons_self d ds'))
  have hdig : ∀ c ∈ d :: ds', c.isDigit = true :=
    fun c hc => (digitChar_facts (h c hc)).1
  unfold parseFloat
  show parseFloatCore (stripSign (d :: ds')).1 (stripSign (d :: ds')).2 = _
  rw [stripSign_no_sign d ds' hd.2.2.1 hd.2.2.2]
  exact parseFloatCore_digits (d :: ds') (by simp) hdig

theorem parseFloat_digits_G (ds : List Char) (hne : ds ≠ [])
    (h : ∀ c ∈ ds, c ∈ digitChars) :
    parseFloat (String.mk (ds ++ ['G'])) = none := by
  obtain ⟨d, ds', rfl⟩ := List.exists_cons_of_ne_nil hne
  have hd := digitChar_facts (h d (List.mem_cons_self d ds'))
  have hdig : ∀ c ∈ d :: ds', c.isDigit = true :=
    fun c hc => (digitChar_facts (h c hc)).1
  unfold parseFloat
  show parseFloatCore (stripSign ((d :: ds') ++ ['G'])).1
      (stripSign ((d :: ds') ++ ['G'])).2 = _
  rw [List.cons_append, stripSign_no_sign d (ds' ++ ['G']) hd.2.2.1 hd.2.2.2,
      ← List.cons_append]
  exact parseFloatCore_digits_G (d :: ds') hdig

/-- C5: the memory-size parser accepts case-insensitive binary suffixes
B, KB, MB, GB, TB with multipliers 1, 1024, 1024², 1024³, 1024⁴, applying
the multi-letter suffix when one is present (shown in general for `GB` over
every nonempty digit string, and concretely for the others): `"8GB"` yields
8·1024³, a bare number is megabytes (`"512"` yields 512·1024²), and an
unparseable string such as `"abc"` yields 0 without raising. -/
theorem C5_parse_memory :
    (∀ ds : List Char, ds ≠ [] → (∀ c ∈ ds, c ∈ digitChars) →
      parse_memory (String.mk (ds ++ ['G', 'B'])) =
        (digitsVal ds : Int) * 1024 ^ 3) ∧
    parse_memory "8GB" = 8 * 1024 ^ 3 ∧
    parse_memory "8gb" = 8 * 1024 ^ 3 ∧
    parse_memory "512" = 512 * 1024 ^ 2 ∧
    parse_memory "abc" = 0 ∧
    parse_memory "8B" = 8 ∧
    parse_memory "8b" = 8 ∧
    parse_memory "8KB" = 8 * 1024 ∧
    parse_memory "8kb" = 8 * 1024 ∧
    parse_memory "8MB" = 8 * 1024 ^ 2 ∧
    parse_memory "8TB" = 8 * 1024 ^ 4 := by
  refine ⟨?_, rfl, rfl, rfl, rfl, rfl, rfl, rfl, rfl, rfl, rfl⟩
  intro ds hne h
  have hup : (String.mk (ds ++ ['G', 'B'])).data.map Char.toUpper =
      ds ++ ['G', 'B'] := by
    show (ds ++ ['G', 'B']).map Char.toUpper = ds ++ ['G', 'B']
    rw [List.map_append, map_toUpper_digits ds h]
    rfl
  have hsplit : ds ++ ['G', 'B'] = (ds ++ ['G']) ++ ['B'] := by simp
  have hendB : pyEndsWith (ds ++ ['G', 'B']) ("B".data) = true := by
    rw [hsplit]
    exact pyEndsWith_suffix (ds ++ ['G']) ['B']
  have htakeB : (ds ++ ['G', 'B']).take
      ((ds ++ ['G', 'B']).length - ("B".data).length) = ds ++ ['G'] := by
    rw [hsplit]
    exact take_append_len (ds ++ ['G']) ['B'] _
      (by simp [List.length_append])
  have hendKB : pyEndsWith (ds ++ ['G', 'B']) ("KB".data) = false := by
    rw [pyEndsWith_eq_of_len ds ['G', 'B'] ("KB".data) rfl]
    rfl
  have hendMB : pyEndsWith (ds ++ ['G', 'B']) ("MB".data) = false := by
    rw [pyEndsWith_eq_of_len ds ['G', 'B'] ("MB".data) rfl]
    rfl
  have hendGB : pyEndsWith (ds ++ ['G', 'B']) ("GB".data) = true :=
    pyEndsWith_suffix ds ['G', 'B']
  have htakeGB : (ds ++ ['G', 'B']).take
      ((ds ++ ['G', 'B']).length - ("GB".data).length) = ds := by
    exact take_append_len ds ['G', 'B'] _ (by simp [List.length_append])
  unfold parse_memory
  dsimp only
  rw [hup]
  unfold memUnits parseMemoryLoop
  rw [hendB, if_pos rfl, htakeB, parseFloat_digits_G ds hne h]
  dsimp only
  unfold parseMemoryLoop
  rw [hendKB, if_neg Bool.false_ne_true]
  unfold parseMemoryLoop
  rw [hendMB, if_neg Bool.false_ne_true]
  unfold parseMemoryLoop
  rw [hendGB, if_pos rfl, htakeGB, parseFloat_digits ds hne h]
  dsimp only
  unfold pyInt decMulNat
  dsimp only
  rw [pow_zero, Int.tdiv_one]
  push_cast
  ring

/-- C5 witness: the general GB clause instantiated at the digit string
`"512"`. -/
theorem C5_parse_memory_witness :
    (['5', '1', '2'] : List Char) ≠ [] ∧
    (∀ c ∈ (['5', '1', '2'] : List Char), c ∈ digitChars) ∧
    parse_memory (String.mk (['5', '1', '2'] ++ ['G', 'B'])) =
      (digitsVal ['5', '1', '2'] : Int) * 1024 ^ 3 :=
  ⟨by decide, by decide,
    C5_parse_memory.1 ['5', '1', '2'] (by decide) (by decide)⟩

/-! ## Theorems about src/executor.py -/

/-- C6: the claim asserts that for every launch failure both `execute` and
`execute_with_resources` report a message and return no handle without
propagating an exception.  Counterexample: `execute_with_resources` on a
missing executable propagates the `FileNotFoundError` — its `Popen` call is
outside any `try` block. -/
theorem C6_counterexample :
    execute_with_resources demoCmd .fileNotFound =
      .error ("FileNotFoundError: ls") := rfl

/-- C6 (amended): `execute` catches both launch failures
(missing executable, permission denied), reports a diagnostic message to the
interactive caller and returns no process handle; `execute_with_resources`,
whose `Popen` call is outside any `try`, propagates the launch exception to
its caller instead. -/
theorem C6_amended_launch_failures :
    (∀ cmd jid, (execute cmd jid .fileNotFound).result = .ok none ∧
      (execute cmd jid .fileNotFound).messages =
        ["hpcshell: command not found: " ++ cmd.command] ∧
      (execute cmd jid .permissionError).result = .ok none ∧
      (execute cmd jid .permissionError).messages =
        ["hpcshell: permission denied: " ++ cmd.command]) ∧
    (∀ cmd, (∃ e, execute_with_resources cmd .fileNotFound = .error e) ∧
      (∃ e, execute_with_resources cmd .permissionError = .error e)) :=
  ⟨fun _ _ => ⟨rfl, rfl, rfl, rfl⟩, fun _ => ⟨⟨_, rfl⟩, ⟨_, rfl⟩⟩⟩

/-- C10: `execute` returns a process handle exactly when the descriptor's
background flag is true and the spawn succeeded; for every foreground
descriptor it returns nothing — waiting for the child when the spawn
succeeded — so the caller cannot distinguish a successful foreground run
from a failed launch by the return value alone. -/
theorem C10_execute_return :
    (∀ cmd jid sp pid, (execute cmd jid sp).result = .ok (some pid) ↔
      (cmd.background = true ∧ sp = .ok pid)) ∧
    (∀ cmd jid sp, cmd.background = false →
      (execute cmd jid sp).result = .ok none ∧
      (∀ pid, sp = .ok pid → (execute cmd jid sp).waited = true)) := by
  constructor
  · intro cmd jid sp pid
    constructor
    · intro h
      cases sp with
      | ok p =>
        by_cases hb : cmd.background = true
        · simp only [execute, hb, if_true] at h
          have : some p = some pid := Except.ok.inj h
          exact ⟨hb, by rw [Option.some.inj this]⟩
        · rw [Bool.not_eq_true] at hb
          simp only [execute, hb, Bool.false_eq_true, if_false] at h
          cases Except.ok.inj h
      | fileNotFound => cases Except.ok.inj h
      | permissionError => cases Except.ok.inj h
      | otherError e => cases Except.ok.inj h
    · rintro ⟨hb, rfl⟩
      simp [execute, hb]
  · intro cmd jid sp hb
    cases sp <;> simp [execute, hb]

/-- C10 witness: a foreground descriptor with a successful spawn yields no
handle and waits for the child. -/
theorem C10_execute_return_witness :
    demoCmd.background = false ∧
    (execute demoCmd none (.ok 42)).result = .ok none ∧
    (execute demoCmd none (.ok 42)).waited = true :=
  ⟨rfl, (C10_execute_return.2 demoCmd none (.ok 42) rfl).1,
    (C10_execute_return.2 demoCmd none (.ok 42) rfl).2 42 rfl⟩

/-! ## Theorems about src/resource.py -/

theorem length_dequeAppend_le {α : Type} (cap : Nat) (l : List α) (x : α) :
    (dequeAppend cap l x).length ≤ cap := by
  unfold dequeAppend
  rw [List.length_drop, List.length_append, List.length_cons, List.length_nil]
  omega

theorem foldl_dequeAppend {α : Type} (cap : Nat) :
    ∀ (ys l : List α), l.length ≤ cap →
      ys.foldl (dequeAppend cap) l =
        (l ++ ys).drop (l.length + ys.length - cap) := by
  intro ys
  induction ys with
  | nil =>
    intro l hl
    rw [List.foldl_nil, List.append_nil, List.length_nil,
        show l.length + 0 - cap = 0 from by omega, List.drop_zero]
  | cons y ys ih =>
    intro l hl
    rw [List.foldl_cons, ih (dequeAppend cap l y) (length_dequeAppend_le cap l y)]
    have hA : dequeAppend cap l y = (l ++ [y]).drop (l.length + 1 - cap) := rfl
    have hlenA : (l ++ [y]).length = l.length + 1 := by simp
    have hlen : (dequeAppend cap l y).length =
        l.length + 1 - (l.length + 1 - cap) := by
      rw [hA, List.length_drop, hlenA]
    rw [hlen, hA]
    rw [← List.drop_append_of_le_length
      (show l.length + 1 - cap ≤ (l ++ [y]).length from by rw [hlenA]; omega)]
    rw [List.drop_drop]
    have harr : (l ++ [y]) ++ ys = l ++ y :: ys := by simp
    rw [harr]
    congr 1
    rw [List.length_cons]
    omega

theorem dequeAppend_full {α : Type} (cap : Nat) (l : List α) (x : α)
    (hfull : l.length = cap) (hpos : 0 < cap) :
    dequeAppend cap l x = l.tail ++ [x] := by
  unfold dequeAppend
  rw [show l.length + 1 - cap = 1 from by omega]
  cases l with
  | nil =>
    rw [List.length_nil] at hfull
    omega
  | cons a l' => simp

theorem foldl_dequeAppend_cap_plus_one {α : Type} (cap : Nat) (x0 : α)
    (xs : List α) (hlen : xs.length = cap) :
    (x0 :: xs).foldl (dequeAppend cap) [] = xs := by
  rw [foldl_dequeAppend cap (x0 :: xs) [] (by simp)]
  rw [List.nil_append, List.length_nil, List.length_cons,
      show 0 + (xs.length + 1) - cap = 1 from by omega, List.drop_one,
      List.tail_cons]

theorem foldl_addToHistory_bounded :
    ∀ (samples : List StatsSnapshot) (st : MonitorState),
      st.cpu.length ≤ st.history_size →
      st.memory.length ≤ st.history_size →
      st.disk.length ≤ st.history_size →
      st.network.length ≤ st.history_size →
      (samples.foldl addToHistory st).history_size = st.history_size ∧
      (samples.foldl addToHistory st).cpu.length ≤ st.history_size ∧
      (samples.foldl addToHistory st).memory.length ≤ st.history_size ∧
      (samples.foldl addToHistory st).disk.length ≤ st.history_size ∧
      (samples.foldl addToHistory st).network.length ≤ st.history_size := by
  intro samples
  induction samples with
  | nil => intro st h1 h2 h3 h4; exact ⟨rfl, h1, h2, h3, h4⟩
  | cons s samples ih =>
    intro st h1 h2 h3 h4
    rw [List.foldl_cons]
    have hstep1 : (addToHistory st s).history_size = st.history_size := rfl
    have hstep2 : (addToHistory st s).cpu.length ≤ st.history_size :=
      length_dequeAppend_le _ _ _
    have hstep3 : (addToHistory st s).memory.length ≤ st.history_size :=
      length_dequeAppend_le _ _ _
    have hstep4 : (addToHistory st s).disk.length ≤ st.history_size := by
      show (match s.disk_delta with
        | some rw => dequeAppend st.history_size st.disk
            ⟨s.timestamp, rw.1, rw.2⟩
        | none => st.disk).length ≤ st.history_size
      cases s.disk_delta with
      | some rw => exact length_dequeAppend_le _ _ _
      | none => exact h3
    have hstep5 : (addToHistory st s).network.length ≤ st.history_size := by
      show (match s.net_delta with
        | some sr => dequeAppend st.history_size st.network
            ⟨s.timestamp, sr.1, sr.2⟩
        | none => st.network).length ≤ st.history_size
      cases s.net_delta with
      | some sr => exact length_dequeAppend_le _ _ _
      | none => exact h4
    have := ih (addToHistory st s) (by rw [hstep1]; exact hstep2)
      (by rw [hstep1]; exact hstep3) (by rw [hstep1]; exact hstep4)
      (by rw [hstep1]; exact hstep5)
    rw [hstep1] at this
    exact this

/-- C8: each per-metric history ring (cpu, memory, disk, network) never
exceeds the configured capacity `history_size`; once a ring is at capacity,
an append evicts exactly the oldest retained sample (FIFO); and after
capacity+1 insertions into one ring the first-inserted sample is gone while
the later ones are retained in order. -/
theorem C8_history_ring :
    (∀ (hs : Nat) (samples : List StatsSnapshot),
      (samples.foldl addToHistory (MonitorState.init hs)).cpu.length ≤ hs ∧
      (samples.foldl addToHistory (MonitorState.init hs)).memory.length ≤ hs ∧
      (samples.foldl addToHistory (MonitorState.init hs)).disk.length ≤ hs ∧
      (samples.foldl addToHistory (MonitorState.init hs)).network.length ≤ hs) ∧
    (∀ (cap : Nat) (l : List CpuEntry) (x : CpuEntry),
      l.length = cap → 0 < cap → dequeAppend cap l x = l.tail ++ [x]) ∧
    (∀ (cap : Nat) (x0 : CpuEntry) (xs : List CpuEntry), xs.length = cap →
      (x0 :: xs).foldl (dequeAppend cap) [] = xs) := by
  refine ⟨?_, ?_, ?_⟩
  · intro hs samples
    have := foldl_addToHistory_bounded samples (MonitorState.init hs)
      (by simp [MonitorState.init]) (by simp [MonitorState.init])
      (by simp [MonitorState.init]) (by simp [MonitorState.init])
    exact ⟨this.2.1, this.2.2.1, this.2.2.2.1, this.2.2.2.2⟩
  · intro cap l x h1 h2
    exact dequeAppend_full cap l x h1 h2
  · intro cap x0 xs hlen
    exact foldl_dequeAppend_cap_plus_one cap x0 xs hlen

/-- C8 witness: a ring of capacity 2, filled, evicts its oldest sample; after
3 insertions into an empty capacity-2 ring only the last two remain. -/
theorem C8_history_ring_witness :
    (⟨0, 0, []⟩ :: [⟨1, 1, []⟩] : List CpuEntry).length = 2 ∧
    dequeAppend 2 (⟨0, 0, []⟩ :: [⟨1, 1, []⟩] : List CpuEntry) ⟨2, 2, []⟩ =
      [⟨1, 1, []⟩, ⟨2, 2, []⟩] ∧
    ((⟨0, 0, []⟩ :: [⟨1, 1, []⟩, ⟨2, 2, []⟩] : List CpuEntry).foldl
      (dequeAppend 2) [] = [⟨1, 1, []⟩, ⟨2, 2, []⟩]) :=
  ⟨rfl,
    C8_history_ring.2.1 2 [⟨0, 0, []⟩, ⟨1, 1, []⟩] ⟨2, 2, []⟩ rfl (by decide),
    C8_history_ring.2.2 2 ⟨0, 0, []⟩ [⟨1, 1, []⟩, ⟨2, 2, []⟩] rfl⟩

end ASTRA
